import Mathlib

/-!
Verification of the Delaware Chancery opinion monitor.

Shallow embedding of `src/check_opinions_chancery.py`, a linear pipeline:
load the persisted seen-opinion list, render the court page and extract PDF
links, diff against the seen set by `url`, download each new PDF, email the
batch, and persist the extended seen list only when the email succeeds.

External effects (browser rendering, HTTP downloads, SMTP transport, the
state file) are modelled as explicit inputs and outputs: the environment
supplies the render outcome, the per-url download outcome and the transport
outcome, and the state file is a value threaded through the run.
-/

namespace ChanceryMonitor

/-- An opinion record as built in `scrape_chancery_opinions` and persisted in
`seen_opinions.json`: a dict with string fields `title`, `url`, `date_found`. -/
structure Opinion where
  title : String
  url : String
  date_found : String
deriving DecidableEq, Repr

/-- The diff step of `main` (line 172):
`new_opinions = [op for op in current_opinions if op["url"] not in seen_urls]`
where `seen_urls = {op["url"] for op in seen_opinions}` (line 166). -/
def diff (current_opinions seen_opinions : List Opinion) : List Opinion :=
  let seen_urls := seen_opinions.map Opinion.url
  current_opinions.filter (fun op => decide (op.url ∉ seen_urls))

/-- JSON values, restricted to the constructs the state file can hold
(the file is written by `json.dump` on a list of dicts of strings, so
strings, arrays and objects cover every value the pipeline produces;
`null` is included so that a well-formed file need not decode). -/
inductive Json where
  | null
  | str (s : String)
  | arr (elems : List Json)
  | obj (fields : List (String × Json))

/-- The state of `seen_opinions.json` on disk: absent, present with
well-formed JSON content `j`, or present but not valid JSON (the text fails
to parse). -/
inductive StoreFile where
  | missing
  | content (j : Json)
  | malformed

/-- Model of `load_seen_opinions` (lines 26-31): if the file exists,
`json.load` it — which raises `JSONDecodeError` on malformed content —
otherwise return `[]`. -/
def load_seen_opinions : StoreFile → Except String Json
  | .missing => .ok (Json.arr [])
  | .content j => .ok j
  | .malformed => .error "JSONDecodeError"

/-- Serialization of one opinion dict, with keys in the insertion order used
at lines 73-77 (`title`, `url`, `date_found`). -/
def encodeOpinion (o : Opinion) : Json :=
  .obj [("title", .str o.title), ("url", .str o.url), ("date_found", .str o.date_found)]

/-- Serialization of the full record list, as `json.dump` writes it. -/
def encodeOpinions (l : List Opinion) : Json :=
  .arr (l.map encodeOpinion)

/-- Model of `save_seen_opinions` (lines 33-36): overwrite the file with the
JSON serialization of the full record list. -/
def save_seen_opinions (opinions : List Opinion) : StoreFile :=
  .content (encodeOpinions opinions)

/-- First-match key lookup in a JSON object, as `op["key"]` reads a parsed
dict (encoded record objects have pairwise-distinct keys, so match order is
immaterial for them). -/
def getField : List (String × Json) → String → Option Json
  | [], _ => none
  | (k, v) :: rest, key => if k = key then some v else getField rest key

/-- Extract a JSON string value. -/
def asString : Json → Option String
  | .str s => some s
  | _ => none

/-- Read one record from a parsed JSON object by key lookup: the three
string fields `main` and `send_email` access. Key order in the object is
irrelevant, and extra fields are ignored, matching dict access in Python. -/
def decodeOpinion (j : Json) : Option Opinion :=
  match j with
  | .obj fields =>
    match (getField fields "title").bind asString,
          (getField fields "url").bind asString,
          (getField fields "date_found").bind asString with
    | some t, some u, some d => some ⟨t, u, d⟩
    | _, _, _ => none
  | _ => none

/-- Read a record list element-wise. -/
def decodeOpinionList : List Json → Option (List Opinion)
  | [] => some []
  | j :: rest =>
    match decodeOpinion j, decodeOpinionList rest with
    | some o, some os => some (o :: os)
    | _, _ => none

/-- Read a record list from the parsed JSON array. -/
def decodeOpinions : Json → Option (List Opinion)
  | .arr elems => decodeOpinionList elems
  | _ => none

/-- Loading interpreted at the record level: parse the file, then read the
value as the list of record dicts that `main` consumes. An `.error` is a run
terminated by an uncaught exception. -/
def loadRecords (f : StoreFile) : Except String (List Opinion) :=
  match load_seen_opinions f with
  | .error e => .error e
  | .ok j =>
    match decodeOpinions j with
    | some l => .ok l
    | none => .error "TypeError"

/-- An anchor element of the rendered DOM: `get_attribute("href")` can be
absent (`None`), and `text` is the element's raw visible text before
`strip()`. -/
structure Anchor where
  href : Option String
  text : String
deriving DecidableEq, Repr

/-- ASCII lowercasing of one character, the case `href.lower()` exercises on
the ASCII URLs this page serves. -/
def lowerChar (c : Char) : Char :=
  if 65 ≤ c.toNat ∧ c.toNat ≤ 90 then Char.ofNat (c.toNat + 32) else c

/-- Python's `s.lower()` on the ASCII strings the pipeline handles. -/
def lowerStr (s : String) : String :=
  ⟨s.data.map lowerChar⟩

/-- Python's default `str.strip()` whitespace set. -/
def isPySpace (c : Char) : Bool :=
  c == ' ' || c == '\t' || c == '\n' || c == '\r' || c == '\x0b' || c == '\x0c'

/-- Python's `s.strip()`: drop leading and trailing whitespace. -/
def stripStr (s : String) : String :=
  ⟨((s.data.dropWhile isPySpace).reverse.dropWhile isPySpace).reverse⟩

/-- Python's substring test `pat in s` on char lists: `pat` occurs
contiguously in `s`. -/
def charsContain (pat : List Char) : List Char → Bool
  | [] => pat.isEmpty
  | c :: rest => pat.isPrefixOf (c :: rest) || charsContain pat rest

/-- Python's `pat in s` for strings. -/
def strContains (s pat : String) : Bool :=
  charsContain pat.data s.data

/-- The outcome of the browser session inside the `try` block of
`scrape_chancery_opinions` (lines 56-103). `raised` is an exception before
any candidate can be appended (page load, settle sleep, the first
`find_elements`); `raisedInFallback` is an exception at the second
`find_elements` (line 84), reached only after the primary loop ran over
`anchors`; `success` is a run of both passes over the rendered page's
anchors without an uncaught exception. Per-link errors inside either loop
are caught by the inner `try` with `except: continue` and are represented by
the anchor data itself. -/
inductive RenderAttempt where
  | raised
  | raisedInFallback (anchors : List Anchor)
  | success (anchors : List Anchor)

/-- The XPath pre-selection `//a[contains(@href, '.pdf')]` (line 64):
keep anchors whose href contains `.pdf`, case-sensitively. -/
def xpathPdfHref (a : Anchor) : Bool :=
  match a.href with
  | some h => strContains h ".pdf"
  | none => false

/-- One iteration of the primary loop (lines 67-80): href truthy, stripped
text truthy, and `"chancery" in href.lower()`. -/
def primaryStep (now : String) (link : Anchor) : Option Opinion :=
  match link.href with
  | none => none
  | some href =>
    let text := stripStr link.text
    if !(href == "") && !(text == "") && strContains (lowerStr href) "chancery" then
      some { title := text, url := href, date_found := now }
    else none

/-- One iteration of the fallback loop (lines 87-100): href truthy,
`".pdf" in href.lower()`, stripped text truthy. -/
def fallbackStep (now : String) (link : Anchor) : Option Opinion :=
  match link.href with
  | none => none
  | some href =>
    let text := stripStr link.text
    if !(href == "") && strContains (lowerStr href) ".pdf" && !(text == "") then
      some { title := text, url := href, date_found := now }
    else none

/-- Model of `scrape_chancery_opinions` (lines 51-107) as a function of the
render outcome: on an uncaught exception the `except` branch logs and the
function returns the `opinions` accumulated so far, which is empty in every
reachable raise point (`raisedInFallback` happens only when the primary pass
appended nothing); on success, run the primary pass over the XPath-selected
links and, exactly when it produced zero candidates, the fallback pass over
all anchors. -/
def scrape_chancery_opinions (now : String) : RenderAttempt → List Opinion
  | .raised => []
  | .raisedInFallback anchors =>
    (anchors.filter xpathPdfHref).filterMap (primaryStep now)
  | .success anchors =>
    let opinions := (anchors.filter xpathPdfHref).filterMap (primaryStep now)
    if opinions.length == 0 then anchors.filterMap (fallbackStep now) else opinions

/-- Claim-side primary policy: target contains `.pdf`, target contains
`chancery` case-insensitively, visible (stripped) text non-empty. -/
def primaryKeep (a : Anchor) : Bool :=
  match a.href with
  | some h => strContains h ".pdf" && strContains (lowerStr h) "chancery" && !(stripStr a.text == "")
  | none => false

/-- Claim-side fallback policy: target contains `.pdf` case-insensitively
and visible (stripped) text non-empty. -/
def fallbackKeep (a : Anchor) : Bool :=
  match a.href with
  | some h => strContains (lowerStr h) ".pdf" && !(stripStr a.text == "")
  | none => false

/-- The record built from a kept anchor. -/
def anchorRecord (now : String) (a : Anchor) : Opinion :=
  { title := stripStr a.text, url := a.href.getD "", date_found := now }

/-- The last `/`-separated segment of a url — Python's
`url.split("/")[-1]` (line 179) — on char lists. -/
def splitSlash : List Char → List (List Char)
  | [] => [[]]
  | c :: rest =>
    let r := splitSlash rest
    if c == '/' then [] :: r
    else
      match r with
      | [] => [[c]]
      | seg :: segs => (c :: seg) :: segs

/-- Local filename derived from a url's final path segment (line 179). -/
def pdfFileName (url : String) : String :=
  ⟨(splitSlash url.data).getLastD []⟩

/-- Model of `download_pdf` (lines 109-125) as a function of the HTTP
outcome for the url: on success the bytes land at `downloads/<filename>` and
that path is returned; any exception (timeout, non-2xx status via
`raise_for_status`, filesystem) is caught, logged, and `None` is returned,
so a failure affects only this one document. -/
def download_pdf (fetchOk : String → Bool) (url filename : String) : Option String :=
  if fetchOk url then some filename else none

/-- The per-record body lines accumulated by the loop at lines 136-137. -/
def opinionLines : List Opinion → String
  | [] => ""
  | op :: rest => "- " ++ op.title ++ "\n  " ++ op.url ++ "\n\n" ++ opinionLines rest

/-- The message body built at lines 135-137. -/
def emailBody (new_opinions : List Opinion) : String :=
  "Found " ++ toString new_opinions.length ++ " new opinion(s):\n\n" ++
    opinionLines new_opinions

/-- A composed message: plain-text body plus the attached file paths. -/
structure EmailMsg where
  body : String
  attachments : List String
deriving DecidableEq, Repr

/-- Model of `send_email` (lines 127-159) as a function of the transport
outcome: composition attaches every path in `pdf_paths` (each path was just
written by `download_pdf`, so the existence check at line 142 passes); the
function returns `True` unless the SMTP session raises, in which case the
exception is caught and it returns `False`. -/
def send_email (transportOk : Bool) (new_opinions : List Opinion)
    (pdf_paths : List String) : EmailMsg × Bool :=
  ({ body := emailBody new_opinions, attachments := pdf_paths }, transportOk)

/-- The external world of one run: the render outcome, the discovery
timestamp, the HTTP outcome per url, and the SMTP transport outcome. -/
structure Env where
  attempt : RenderAttempt
  now : String
  fetchOk : String → Bool
  emailOk : Bool

/-- Observable outcome of one `main` run: the state file after the run, the
diffed new records, the urls for which a download was attempted, the paths
that downloaded successfully, the composed email if one was composed, and
whether it was sent. -/
structure RunOutcome where
  store : StoreFile
  newOps : List Opinion
  fetchAttempts : List String
  pdf_paths : List String
  email : Option EmailMsg
  sent : Bool

/-- The body of `main` (lines 161-191) after the seen list is loaded:
scrape, diff, and for a non-empty diff download every new record, send one
email with whatever downloaded, and persist `seen ++ new` exactly when the
send succeeded. An empty diff ends the run with no download, no email and
no write. -/
def mainSteps (env : Env) (store : StoreFile) (seen_opinions : List Opinion) : RunOutcome :=
  let current_opinions := scrape_chancery_opinions env.now env.attempt
  let new_opinions := diff current_opinions seen_opinions
  if new_opinions.isEmpty then
    { store := store, newOps := new_opinions, fetchAttempts := [],
      pdf_paths := [], email := none, sent := false }
  else
    let pdf_paths := new_opinions.filterMap
      (fun opinion => download_pdf env.fetchOk opinion.url (pdfFileName opinion.url))
    let result := send_email env.emailOk new_opinions pdf_paths
    if result.2 then
      { store := save_seen_opinions (seen_opinions ++ new_opinions),
        newOps := new_opinions, fetchAttempts := new_opinions.map Opinion.url,
        pdf_paths := pdf_paths, email := some result.1, sent := true }
    else
      { store := store, newOps := new_opinions,
        fetchAttempts := new_opinions.map Opinion.url,
        pdf_paths := pdf_paths, email := some result.1, sent := false }

/-- One full invocation of `main`: load the state file — a parse failure
propagates and terminates the run with the file untouched — then run the
pipeline on the loaded record list. -/
def run (env : Env) (store : StoreFile) : Except String RunOutcome :=
  match loadRecords store with
  | .error e => .error e
  | .ok seen_opinions => .ok (mainSteps env store seen_opinions)

/-- The stores producible by a sequence of completed runs starting from the
initial absent file. -/
inductive Reachable : StoreFile → Prop
  | init : Reachable StoreFile.missing
  | step (env : Env) (s : StoreFile) (o : RunOutcome) :
      Reachable s → run env s = Except.ok o → Reachable o.store

/-- The stores producible when every contributing run scraped a candidate
list with pairwise-distinct urls. -/
inductive ReachableDistinct : StoreFile → Prop
  | init : ReachableDistinct StoreFile.missing
  | step (env : Env) (s : StoreFile) (o : RunOutcome) :
      ReachableDistinct s → run env s = Except.ok o →
      ((scrape_chancery_opinions env.now env.attempt).map Opinion.url).Nodup →
      ReachableDistinct o.store

/-! Theorems. -/

/-- C1: the diff step returns exactly those records of the candidate list `S`
whose `url` is not among the `url` values of the seen list `T`, in `S`'s
original order (it is a sublist of `S`, membership is characterized by the
url test, and every occurrence of a kept record is kept).  The step is a pure
function of its two arguments in this embedding, as in the source, where the
list comprehension reads but never mutates either list and performs no I/O. -/
theorem diff_characterization (S T : List Opinion) :
    (diff S T).Sublist S ∧
    (∀ r : Opinion, r ∈ diff S T ↔ r ∈ S ∧ r.url ∉ T.map Opinion.url) ∧
    (∀ r : Opinion, (diff S T).count r =
      if r.url ∈ T.map Opinion.url then 0 else S.count r) := by
  have hmem : ∀ r : Opinion, r ∈ diff S T ↔ r ∈ S ∧ r.url ∉ T.map Opinion.url := by
    intro r
    simp [diff, List.mem_filter]
  refine ⟨List.filter_sublist S, hmem, ?_⟩
  intro r
  by_cases h : r.url ∈ T.map Opinion.url
  · simp only [h, if_true]
    rw [List.count_eq_zero]
    intro hr
    exact ((hmem r).mp hr).2 h
  · simp only [h, if_false]
    unfold diff
    simp only
    rw [List.count_filter]
    simp [h]

theorem decodeOpinion_encodeOpinion (o : Opinion) :
    decodeOpinion (encodeOpinion o) = some o := by
  simp [decodeOpinion, encodeOpinion, getField, asString]

theorem decodeOpinions_encodeOpinions (l : List Opinion) :
    decodeOpinions (encodeOpinions l) = some l := by
  induction l with
  | nil => rfl
  | cons o rest ih =>
    simp only [encodeOpinions, decodeOpinions, List.map] at ih ⊢
    simp [decodeOpinionList, decodeOpinion_encodeOpinion, ih]

theorem loadRecords_save (x : List Opinion) :
    loadRecords (save_seen_opinions x) = .ok x := by
  simp [loadRecords, save_seen_opinions, load_seen_opinions, decodeOpinions_encodeOpinions]

/-- C8: saving a record list `x` and then loading yields `x` again,
record-for-record and field-for-field; the decoder reads each object by key
lookup, so key ordering of the serialized objects is disregarded. -/
theorem save_load_roundtrip (x : List Opinion) :
    loadRecords (save_seen_opinions x) = Except.ok x :=
  loadRecords_save x

/-- C9: loading returns the empty sequence when no state file exists; a
malformed file makes the parse error propagate uncaught, so any run over it
terminates as an `.error`; and every load outcome is one of these or the
file's well-formed content — no other outcome exists. -/
theorem load_outcomes :
    load_seen_opinions StoreFile.missing = Except.ok (Json.arr []) ∧
    loadRecords StoreFile.missing = Except.ok ([] : List Opinion) ∧
    (∃ e, load_seen_opinions StoreFile.malformed = Except.error e) ∧
    (∀ env : Env, run env StoreFile.malformed = Except.error "JSONDecodeError") ∧
    (∀ f : StoreFile,
      (f = StoreFile.missing ∧ load_seen_opinions f = Except.ok (Json.arr [])) ∨
      (∃ j, f = StoreFile.content j ∧ load_seen_opinions f = Except.ok j) ∨
      (f = StoreFile.malformed ∧ ∃ e, load_seen_opinions f = Except.error e)) := by
  refine ⟨rfl, rfl, ⟨"JSONDecodeError", rfl⟩, fun _ => rfl, ?_⟩
  intro f
  cases f with
  | missing => exact Or.inl ⟨rfl, rfl⟩
  | content j => exact Or.inr (Or.inl ⟨j, rfl, rfl⟩)
  | malformed => exact Or.inr (Or.inr ⟨rfl, "JSONDecodeError", rfl⟩)

theorem charsContain_iff (pat s : List Char) :
    charsContain pat s = true ↔ pat <:+: s := by
  induction s with
  | nil =>
    simp [charsContain, List.isEmpty_iff]
  | cons c rest ih =>
    simp [charsContain, List.infix_cons_iff, ih]

theorem strContains_pdf_ne_empty (h : String)
    (hc : strContains h ".pdf" = true) : (h == "") = false := by
  cases heq : h == "" with
  | false => rfl
  | true =>
    have he : h = "" := by simpa using heq
    subst he
    exact absurd hc (by decide)

theorem strContains_lower_pdf_ne_empty (h : String)
    (hc : strContains (lowerStr h) ".pdf" = true) : (h == "") = false := by
  cases heq : h == "" with
  | false => rfl
  | true =>
    have he : h = "" := by simpa using heq
    subst he
    exact absurd hc (by decide)

theorem primary_pass_eq (now : String) (anchors : List Anchor) :
    (anchors.filter xpathPdfHref).filterMap (primaryStep now)
      = (anchors.filter primaryKeep).map (anchorRecord now) := by
  induction anchors with
  | nil => rfl
  | cons a rest ih =>
    cases ha : a.href with
    | none =>
      have h1 : xpathPdfHref a = false := by simp [xpathPdfHref, ha]
      have h2 : primaryKeep a = false := by simp [primaryKeep, ha]
      simp [List.filter_cons, h1, h2, ih]
    | some h =>
      cases hp : strContains h ".pdf" with
      | false =>
        have h1 : xpathPdfHref a = false := by simp [xpathPdfHref, ha, hp]
        have h2 : primaryKeep a = false := by simp [primaryKeep, ha, hp]
        simp [List.filter_cons, h1, h2, ih]
      | true =>
        have h1 : xpathPdfHref a = true := by simp [xpathPdfHref, ha, hp]
        have hne : (h == "") = false := strContains_pdf_ne_empty h hp
        cases hc : strContains (lowerStr h) "chancery" with
        | false =>
          have h2 : primaryKeep a = false := by simp [primaryKeep, ha, hp, hc]
          have h3 : primaryStep now a = none := by
            simp [primaryStep, ha, hc]
          simp [List.filter_cons, h1, h2, h3, List.filterMap_cons, ih]
        | true =>
          cases ht : stripStr a.text == "" with
          | true =>
            have h2 : primaryKeep a = false := by simp [primaryKeep, ha, ht]
            have h3 : primaryStep now a = none := by
              simp [primaryStep, ha, ht]
            simp [List.filter_cons, h1, h2, h3, List.filterMap_cons, ih]
          | false =>
            have h2 : primaryKeep a = true := by simp [primaryKeep, ha, hp, hc, ht]
            have h3 : primaryStep now a = some (anchorRecord now a) := by
              simp [primaryStep, ha, hne, hc, ht, anchorRecord]
            simp [List.filter_cons, h1, h2, h3, List.filterMap_cons, List.map_cons, ih]

theorem fallback_pass_eq (now : String) (anchors : List Anchor) :
    anchors.filterMap (fallbackStep now)
      = (anchors.filter fallbackKeep).map (anchorRecord now) := by
  induction anchors with
  | nil => rfl
  | cons a rest ih =>
    cases ha : a.href with
    | none =>
      have h2 : fallbackKeep a = false := by simp [fallbackKeep, ha]
      have h3 : fallbackStep now a = none := by simp [fallbackStep, ha]
      simp [List.filter_cons, h2, h3, List.filterMap_cons, ih]
    | some h =>
      cases hp : strContains (lowerStr h) ".pdf" with
      | false =>
        have h2 : fallbackKeep a = false := by simp [fallbackKeep, ha, hp]
        have h3 : fallbackStep now a = none := by simp [fallbackStep, ha, hp]
        simp [List.filter_cons, h2, h3, List.filterMap_cons, ih]
      | true =>
        have hne : (h == "") = false := strContains_lower_pdf_ne_empty h hp
        cases ht : stripStr a.text == "" with
        | true =>
          have h2 : fallbackKeep a = false := by simp [fallbackKeep, ha, ht]
          have h3 : fallbackStep now a = none := by simp [fallbackStep, ha, ht]
          simp [List.filter_cons, h2, h3, List.filterMap_cons, ih]
        | false =>
          have h2 : fallbackKeep a = true := by simp [fallbackKeep, ha, hp, ht]
          have h3 : fallbackStep now a = some (anchorRecord now a) := by
            simp [fallbackStep, ha, hne, hp, ht, anchorRecord]
          simp [List.filter_cons, h2, h3, List.filterMap_cons, List.map_cons, ih]

/-- C5: on a successful render, the extraction keeps exactly the anchors
satisfying the primary policy (target contains `.pdf`, contains `chancery`
case-insensitively, visible text non-empty); if and only if that primary
pass yields zero candidates, it instead keeps all anchors whose target
contains `.pdf` case-insensitively with non-empty visible text. -/
theorem scrape_extraction (anchors : List Anchor) (now : String) :
    (anchors.filter primaryKeep ≠ [] →
      scrape_chancery_opinions now (RenderAttempt.success anchors)
        = (anchors.filter primaryKeep).map (anchorRecord now)) ∧
    (anchors.filter primaryKeep = [] →
      scrape_chancery_opinions now (RenderAttempt.success anchors)
        = (anchors.filter fallbackKeep).map (anchorRecord now)) := by
  have hmain : scrape_chancery_opinions now (RenderAttempt.success anchors)
      = if ((anchors.filter primaryKeep).map (anchorRecord now)).length == 0
        then anchors.filterMap (fallbackStep now)
        else (anchors.filter primaryKeep).map (anchorRecord now) := by
    simp only [scrape_chancery_opinions, primary_pass_eq]
  constructor
  · intro hne
    rw [hmain, if_neg]
    simp [List.length_eq_zero, hne]
  · intro he
    rw [hmain, if_pos, fallback_pass_eq]
    simp [he]

/-- Witness for C5 at a concrete page: the primary pass yields zero
candidates (one link's `.pdf` is uppercase, the other lacks `chancery`), so
the fallback keeps both `.pdf` links with non-empty text. -/
theorem scrape_extraction_witness :
    scrape_chancery_opinions "2026-01-05T08:00:00"
      (RenderAttempt.success
        [⟨some "https://courts.delaware.gov/x.PDF", " In re X "⟩,
         ⟨some "https://courts.delaware.gov/y.pdf", "In re Y"⟩,
         ⟨none, "no target"⟩])
      = [⟨"In re X", "https://courts.delaware.gov/x.PDF", "2026-01-05T08:00:00"⟩,
         ⟨"In re Y", "https://courts.delaware.gov/y.pdf", "2026-01-05T08:00:00"⟩] := by
  rw [(scrape_extraction
        [⟨some "https://courts.delaware.gov/x.PDF", " In re X "⟩,
         ⟨some "https://courts.delaware.gov/y.pdf", "In re Y"⟩,
         ⟨none, "no target"⟩] "2026-01-05T08:00:00").2 (by decide)]
  decide

/-- C6: every exception raised during the render/extract attempt is caught
and yields the empty candidate sequence: an exception before the primary
pass returns `[]`, and an exception at the fallback query — reachable only
when the primary pass appended nothing — also returns `[]` (the `except`
branch falls through to `return opinions` with the accumulator empty). -/
theorem scrape_exception_empty (now : String) :
    scrape_chancery_opinions now RenderAttempt.raised = [] ∧
    (∀ anchors : List Anchor,
      (anchors.filter xpathPdfHref).filterMap (primaryStep now) = [] →
      scrape_chancery_opinions now (RenderAttempt.raisedInFallback anchors) = []) := by
  refine ⟨rfl, ?_⟩
  intro anchors hempty
  simpa [scrape_chancery_opinions] using hempty

/-- Witness for C6 at a concrete raise point in the fallback query. -/
theorem scrape_exception_empty_witness :
    scrape_chancery_opinions "2026-01-05T08:00:00"
      (RenderAttempt.raisedInFallback [⟨some "https://a/b.PDF", "B"⟩]) = [] :=
  (scrape_exception_empty "2026-01-05T08:00:00").2
    [⟨some "https://a/b.PDF", "B"⟩] (by decide)

theorem run_ok_iff (env : Env) (store : StoreFile) (o : RunOutcome) :
    run env store = Except.ok o ↔
    ∃ seen, loadRecords store = Except.ok seen ∧ o = mainSteps env store seen := by
  unfold run
  cases h : loadRecords store <;> simp [eq_comm]

theorem mainSteps_cases (env : Env) (store : StoreFile) (seen : List Opinion) :
    (diff (scrape_chancery_opinions env.now env.attempt) seen = [] ∧
      mainSteps env store seen =
        { store := store, newOps := [], fetchAttempts := [],
          pdf_paths := [], email := none, sent := false }) ∨
    (diff (scrape_chancery_opinions env.now env.attempt) seen ≠ [] ∧
      mainSteps env store seen =
        { store := if env.emailOk then
            save_seen_opinions
              (seen ++ diff (scrape_chancery_opinions env.now env.attempt) seen)
          else store,
          newOps := diff (scrape_chancery_opinions env.now env.attempt) seen,
          fetchAttempts :=
            (diff (scrape_chancery_opinions env.now env.attempt) seen).map Opinion.url,
          pdf_paths :=
            (diff (scrape_chancery_opinions env.now env.attempt) seen).filterMap
              (fun opinion => download_pdf env.fetchOk opinion.url (pdfFileName opinion.url)),
          email := some
            { body := emailBody (diff (scrape_chancery_opinions env.now env.attempt) seen),
              attachments :=
                (diff (scrape_chancery_opinions env.now env.attempt) seen).filterMap
                  (fun opinion =>
                    download_pdf env.fetchOk opinion.url (pdfFileName opinion.url)) },
          sent := env.emailOk }) := by
  by_cases hE : diff (scrape_chancery_opinions env.now env.attempt) seen = []
  · left
    refine ⟨hE, ?_⟩
    simp [mainSteps, hE]
  · right
    refine ⟨hE, ?_⟩
    have hE' : (diff (scrape_chancery_opinions env.now env.attempt) seen).isEmpty = false := by
      simp [List.isEmpty_iff, hE]
    cases hok : env.emailOk <;>
      simp [mainSteps, hE', send_email, hok]

/-- C2: the state file is written only when the diffed set is non-empty and
the send succeeded; in every other completed run — a failed send, or an
empty diffed set, in which case no email is attempted either — the file
after the run equals the file before. -/
theorem store_unchanged_unless_notified (env : Env) (store : StoreFile)
    (o : RunOutcome) (hrun : run env store = Except.ok o)
    (hother : o.newOps = [] ∨ o.sent = false) :
    o.store = store ∧ (o.newOps = [] → o.email = none) := by
  obtain ⟨seen, hseen, rfl⟩ := (run_ok_iff env store o).mp hrun
  rcases mainSteps_cases env store seen with ⟨hE, heq⟩ | ⟨hE, heq⟩
  · rw [heq]
    exact ⟨rfl, fun _ => rfl⟩
  · rw [heq] at hother ⊢
    simp only at hother ⊢
    rcases hother with hnil | hok
    · exact absurd hnil hE
    · simp [hok, hE]

/-- Witness for C2: a run with one new chancery opinion whose send fails
leaves the absent store absent. -/
theorem store_unchanged_witness :
    (mainSteps
      ⟨RenderAttempt.success [⟨some "https://courts.delaware.gov/chancery/a.pdf", "In re A"⟩],
       "2026-01-05T08:00:00", fun _ => true, false⟩
      StoreFile.missing []).store = StoreFile.missing :=
  (store_unchanged_unless_notified
    ⟨RenderAttempt.success [⟨some "https://courts.delaware.gov/chancery/a.pdf", "In re A"⟩],
     "2026-01-05T08:00:00", fun _ => true, false⟩
    StoreFile.missing
    (mainSteps
      ⟨RenderAttempt.success [⟨some "https://courts.delaware.gov/chancery/a.pdf", "In re A"⟩],
       "2026-01-05T08:00:00", fun _ => true, false⟩
      StoreFile.missing [])
    rfl (Or.inr rfl)).1

/-- C3: when the send succeeds, the run persists the pre-run list followed
by every diffed new record in diff order — including records whose
individual download failed, since the persisted set is the diffed set,
computed before and independently of the downloads. -/
theorem notify_success_persists_all (env : Env) (store : StoreFile)
    (seen : List Opinion) (o : RunOutcome)
    (hrun : run env store = Except.ok o)
    (hseen : loadRecords store = Except.ok seen)
    (hsent : o.sent = true) :
    o.store = save_seen_opinions (seen ++ o.newOps) ∧
    loadRecords o.store = Except.ok (seen ++ o.newOps) ∧
    o.newOps = diff (scrape_chancery_opinions env.now env.attempt) seen := by
  obtain ⟨seen', hseen', rfl⟩ := (run_ok_iff env store o).mp hrun
  rw [hseen] at hseen'
  injection hseen' with h
  subst h
  rcases mainSteps_cases env store seen with ⟨hE, heq⟩ | ⟨hE, heq⟩
  · rw [heq] at hsent
    exact absurd hsent (by simp)
  · rw [heq] at hsent ⊢
    simp only at hsent ⊢
    simp [hsent, loadRecords_save]

/-- Witness for C3: one new chancery opinion, download and send succeed, and
the persisted list is the empty pre-run list followed by that record. -/
theorem notify_success_persists_witness :
    (mainSteps
      ⟨RenderAttempt.success [⟨some "https://courts.delaware.gov/chancery/a.pdf", "In re A"⟩],
       "2026-01-05T08:00:00", fun _ => true, true⟩
      StoreFile.missing []).store
      = save_seen_opinions ([] ++
          (mainSteps
            ⟨RenderAttempt.success
              [⟨some "https://courts.delaware.gov/chancery/a.pdf", "In re A"⟩],
             "2026-01-05T08:00:00", fun _ => true, true⟩
            StoreFile.missing []).newOps) :=
  (notify_success_persists_all
    ⟨RenderAttempt.success [⟨some "https://courts.delaware.gov/chancery/a.pdf", "In re A"⟩],
     "2026-01-05T08:00:00", fun _ => true, true⟩
    StoreFile.missing []
    (mainSteps
      ⟨RenderAttempt.success [⟨some "https://courts.delaware.gov/chancery/a.pdf", "In re A"⟩],
       "2026-01-05T08:00:00", fun _ => true, true⟩
      StoreFile.missing [])
    rfl rfl rfl).1

theorem filterMap_download (fOk : String → Bool) (l : List Opinion) :
    l.filterMap (fun opinion => download_pdf fOk opinion.url (pdfFileName opinion.url))
      = ((l.filter fun op => fOk op.url).map fun op => pdfFileName op.url) := by
  induction l with
  | nil => rfl
  | cons a rest ih =>
    simp only [download_pdf] at ih ⊢
    cases hf : fOk a.url <;>
      simp [List.filterMap_cons, List.filter_cons, hf, ih]

theorem contiguous_in_append_right {α : Type} (x l r : List α) (h : l <:+: r) :
    l <:+: x ++ r := by
  obtain ⟨s, t, hst⟩ := h
  exact ⟨x ++ s, t, by rw [← hst]; simp [List.append_assoc]⟩

theorem entry_in_opinionLines (ops : List Opinion) (op : Opinion) (hmem : op ∈ ops) :
    ("- " ++ op.title ++ "\n  " ++ op.url).data <:+: (opinionLines ops).data := by
  induction ops with
  | nil => cases hmem
  | cons a rest ih =>
    rcases List.mem_cons.mp hmem with h | h
    · subst h
      refine ⟨[], "\n\n".data ++ (opinionLines rest).data, ?_⟩
      simp [opinionLines, String.data_append, List.append_assoc]
    · obtain ⟨s, t, hst⟩ := ih h
      refine ⟨("- " ++ a.title ++ "\n  " ++ a.url ++ "\n\n").data ++ s, t, ?_⟩
      have h2 : (opinionLines (a :: rest)).data
          = ("- " ++ a.title ++ "\n  " ++ a.url ++ "\n\n").data ++ (opinionLines rest).data := by
        simp [opinionLines, String.data_append, List.append_assoc]
      rw [h2, ← hst]
      simp [List.append_assoc]

theorem entry_in_emailBody (ops : List Opinion) (op : Opinion) (hmem : op ∈ ops) :
    strContains (emailBody ops) ("- " ++ op.title ++ "\n  " ++ op.url) = true := by
  unfold strContains
  rw [charsContain_iff]
  have h := entry_in_opinionLines ops op hmem
  have hbody : (emailBody ops).data
      = ("Found " ++ toString ops.length ++ " new opinion(s):\n\n").data
          ++ (opinionLines ops).data := by
    simp [emailBody, String.data_append]
  rw [hbody]
  exact contiguous_in_append_right _ _ _ h

/-- C4: for a non-empty diffed set, an individual download failure does not
abort the batch: a download is attempted for every new record independently,
the email is still composed and handed to the transport, its attachments are
exactly the successfully downloaded documents (failed ones silently
omitted), and its body still lists every new record's title and url. -/
theorem fetch_failure_tolerated (env : Env) (store : StoreFile) (o : RunOutcome)
    (hrun : run env store = Except.ok o) (hne : o.newOps ≠ []) :
    o.fetchAttempts = o.newOps.map Opinion.url ∧
    ∃ msg, o.email = some msg ∧
      msg.attachments
        = ((o.newOps.filter fun op => env.fetchOk op.url).map fun op => pdfFileName op.url) ∧
      msg.body = emailBody o.newOps ∧
      ∀ op ∈ o.newOps, strContains msg.body ("- " ++ op.title ++ "\n  " ++ op.url) = true := by
  obtain ⟨seen, hseen, rfl⟩ := (run_ok_iff env store o).mp hrun
  rcases mainSteps_cases env store seen with ⟨hE, heq⟩ | ⟨hE, heq⟩
  · rw [heq] at hne
    simp at hne
  · rw [heq]
    refine ⟨rfl, ⟨_, rfl, ?_, rfl, ?_⟩⟩
    · exact filterMap_download env.fetchOk _
    · intro op hop
      exact entry_in_emailBody _ op hop

/-- Witness for C4: two new chancery opinions, the first download fails and
the second succeeds; the email is composed with exactly the second document
attached. -/
theorem fetch_failure_witness :
    ∃ msg,
      (mainSteps
        ⟨RenderAttempt.success
          [⟨some "https://courts.delaware.gov/chancery/a.pdf", "In re A"⟩,
           ⟨some "https://courts.delaware.gov/chancery/b.pdf", "In re B"⟩],
         "2026-01-05T08:00:00",
         fun u => u == "https://courts.delaware.gov/chancery/b.pdf", true⟩
        StoreFile.missing []).email = some msg ∧
      msg.attachments = ["b.pdf"] := by
  obtain ⟨-, msg, hmsg, hatt, -, -⟩ :=
    fetch_failure_tolerated
      ⟨RenderAttempt.success
        [⟨some "https://courts.delaware.gov/chancery/a.pdf", "In re A"⟩,
         ⟨some "https://courts.delaware.gov/chancery/b.pdf", "In re B"⟩],
       "2026-01-05T08:00:00",
       fun u => u == "https://courts.delaware.gov/chancery/b.pdf", true⟩
      StoreFile.missing
      (mainSteps
        ⟨RenderAttempt.success
          [⟨some "https://courts.delaware.gov/chancery/a.pdf", "In re A"⟩,
           ⟨some "https://courts.delaware.gov/chancery/b.pdf", "In re B"⟩],
         "2026-01-05T08:00:00",
         fun u => u == "https://courts.delaware.gov/chancery/b.pdf", true⟩
        StoreFile.missing [])
      rfl (by decide)
  exact ⟨msg, hmsg, by rw [hatt]; decide⟩

/-- C10: a completed run only extends the persisted list: the pre-run record
list is an unchanged initial segment of the post-run record list, the
extension being the diffed new set when it was persisted and empty
otherwise. -/
theorem store_only_grows (env : Env) (store : StoreFile) (seen : List Opinion)
    (o : RunOutcome) (hrun : run env store = Except.ok o)
    (hseen : loadRecords store = Except.ok seen) :
    ∃ ext, loadRecords o.store = Except.ok (seen ++ ext) ∧
      (ext = o.newOps ∨ ext = []) := by
  obtain ⟨seen', hseen', rfl⟩ := (run_ok_iff env store o).mp hrun
  rw [hseen] at hseen'
  injection hseen' with h
  subst h
  rcases mainSteps_cases env store seen with ⟨hE, heq⟩ | ⟨hE, heq⟩
  · rw [heq]
    exact ⟨[], by simpa using hseen, Or.inr rfl⟩
  · rw [heq]
    cases hok : env.emailOk
    · exact ⟨[], by simpa [hok] using hseen, Or.inr rfl⟩
    · exact ⟨diff (scrape_chancery_opinions env.now env.attempt) seen,
        by simpa [hok] using
          loadRecords_save (seen ++ diff (scrape_chancery_opinions env.now env.attempt) seen),
        Or.inl rfl⟩

/-- Witness for C10: a successful run from the absent store persists the
empty pre-run list extended by the new records. -/
theorem store_only_grows_witness :
    ∃ ext, loadRecords
        (mainSteps
          ⟨RenderAttempt.success
            [⟨some "https://courts.delaware.gov/chancery/a.pdf", "In re A"⟩],
           "2026-01-05T08:00:00", fun _ => true, true⟩
          StoreFile.missing []).store = Except.ok ([] ++ ext) ∧
      (ext = (mainSteps
          ⟨RenderAttempt.success
            [⟨some "https://courts.delaware.gov/chancery/a.pdf", "In re A"⟩],
           "2026-01-05T08:00:00", fun _ => true, true⟩
          StoreFile.missing []).newOps ∨ ext = []) :=
  store_only_grows
    ⟨RenderAttempt.success [⟨some "https://courts.delaware.gov/chancery/a.pdf", "In re A"⟩],
     "2026-01-05T08:00:00", fun _ => true, true⟩
    StoreFile.missing []
    (mainSteps
      ⟨RenderAttempt.success [⟨some "https://courts.delaware.gov/chancery/a.pdf", "In re A"⟩],
       "2026-01-05T08:00:00", fun _ => true, true⟩
      StoreFile.missing [])
    rfl rfl

/-- C7 counterexample: a single completed run over a page that lists the
same chancery PDF link twice produces a reachable store whose persisted list
contains two records with the same url, so the url field does not uniquely
identify a record in every reachable store. -/
theorem url_uniqueness_counterexample :
    ∃ s : StoreFile, Reachable s ∧
      ∃ l : List Opinion, loadRecords s = Except.ok l ∧ ¬ (l.map Opinion.url).Nodup := by
  refine ⟨_, Reachable.step
      ⟨RenderAttempt.success
        [⟨some "https://courts.delaware.gov/chancery/a.pdf", "In re A"⟩,
         ⟨some "https://courts.delaware.gov/chancery/a.pdf", "In re A"⟩],
       "2026-01-05T08:00:00", fun _ => true, true⟩
      StoreFile.missing
      (mainSteps
        ⟨RenderAttempt.success
          [⟨some "https://courts.delaware.gov/chancery/a.pdf", "In re A"⟩,
           ⟨some "https://courts.delaware.gov/chancery/a.pdf", "In re A"⟩],
         "2026-01-05T08:00:00", fun _ => true, true⟩
        StoreFile.missing [])
      Reachable.init rfl, ?_⟩
  refine ⟨[⟨"In re A", "https://courts.delaware.gov/chancery/a.pdf", "2026-01-05T08:00:00"⟩,
           ⟨"In re A", "https://courts.delaware.gov/chancery/a.pdf", "2026-01-05T08:00:00"⟩],
    rfl, by decide⟩

/-- C7 amended: in every store reachable through runs whose scraped
candidate lists carry pairwise-distinct urls, the url field uniquely
identifies a record: the persisted list's urls are pairwise distinct. The
proviso is forced by the code: a single run over a page listing the same
link twice already persists two records with equal urls. -/
theorem url_unique_of_distinct_candidates (s : StoreFile)
    (hreach : ReachableDistinct s) :
    ∃ l : List Opinion, loadRecords s = Except.ok l ∧ (l.map Opinion.url).Nodup := by
  induction hreach with
  | init => exact ⟨[], rfl, List.nodup_nil⟩
  | step env s o hs hrun hnodup ih =>
    obtain ⟨seen, hseen, hnd⟩ := ih
    obtain ⟨seen', hseen', ho⟩ := (run_ok_iff env s o).mp hrun
    rw [hseen] at hseen'
    injection hseen' with hss
    subst hss
    subst ho
    rcases mainSteps_cases env s seen with ⟨hE, heq⟩ | ⟨hE, heq⟩
    · rw [heq]
      exact ⟨seen, hseen, hnd⟩
    · rw [heq]
      cases hok : env.emailOk
      · exact ⟨seen, by simpa [hok] using hseen, hnd⟩
      · refine ⟨seen ++ diff (scrape_chancery_opinions env.now env.attempt) seen,
          by simpa [hok] using
            loadRecords_save
              (seen ++ diff (scrape_chancery_opinions env.now env.attempt) seen), ?_⟩
        rw [List.map_append, List.nodup_append]
        refine ⟨hnd, ?_, ?_⟩
        · exact List.Nodup.sublist
            ((List.filter_sublist _).map Opinion.url) hnodup
        · intro u hu hunew
          obtain ⟨op, hop, hueq⟩ := List.mem_map.mp hunew
          subst hueq
          have hop2 : op ∈ (scrape_chancery_opinions env.now env.attempt).filter
              (fun op => decide (op.url ∉ seen.map Opinion.url)) := hop
          have hcond : op.url ∉ seen.map Opinion.url :=
            of_decide_eq_true (List.mem_filter.mp hop2).2
          exact hcond hu

/-- Witness for the amended C7: one distinct-candidate run from the absent
store yields a persisted list with pairwise-distinct urls. -/
theorem url_unique_witness :
    ∃ l : List Opinion,
      loadRecords
        (mainSteps
          ⟨RenderAttempt.success
            [⟨some "https://courts.delaware.gov/chancery/a.pdf", "In re A"⟩],
           "2026-01-05T08:00:00", fun _ => true, true⟩
          StoreFile.missing []).store = Except.ok l ∧
      (l.map Opinion.url).Nodup :=
  url_unique_of_distinct_candidates _
    (ReachableDistinct.step
      ⟨RenderAttempt.success
        [⟨some "https://courts.delaware.gov/chancery/a.pdf", "In re A"⟩],
       "2026-01-05T08:00:00", fun _ => true, true⟩
      StoreFile.missing
      (mainSteps
        ⟨RenderAttempt.success
          [⟨some "https://courts.delaware.gov/chancery/a.pdf", "In re A"⟩],
         "2026-01-05T08:00:00", fun _ => true, true⟩
        StoreFile.missing [])
      ReachableDistinct.init rfl (by decide))

end ChanceryMonitor
